import Mathlib

/-!
Verification of the swap-path recommendation and execution pipeline
(query parsing, historical path ranking, advice decision extraction,
transaction building and execution, chain-data fetching) against its
natural-language specification.  The Python source is shallowly embedded:
pure functions become Lean functions over `List Char` / exact rationals /
`ℕ`, IEEE-754 double arithmetic (Python `float`) is modelled exactly by
round-to-nearest-even, and network collaborators are abstracted into
explicit environment records.  Effects (RPC calls, broadcasts) are
modelled as event traces returned alongside results.

Rationals are represented by the kernel-computable type `Q` (an integer
numerator with a positive integer denominator, not necessarily reduced);
`Q.toRat` interprets it in `ℚ` and the bridge lemmas below show the
arithmetic agrees with `ℚ`.
-/

namespace Swap

/-! ## Exact rational arithmetic on unreduced fractions -/

/-- A rational as an unreduced fraction with positive denominator.
Unlike `ℚ` its operations avoid gcd normalisation, so concrete values
reduce inside the kernel (`decide`). -/
structure Q where
  num : ℤ
  den : ℤ
  pos : 0 < den

namespace Q

def ofInt (n : ℤ) : Q := ⟨n, 1, Int.zero_lt_one⟩

def ofNat (n : ℕ) : Q := ofInt n

def add (a b : Q) : Q := ⟨a.num * b.den + b.num * a.den, a.den * b.den, mul_pos a.pos b.pos⟩

def neg (a : Q) : Q := ⟨-a.num, a.den, a.pos⟩

def sub (a b : Q) : Q := add a (neg b)

def mul (a b : Q) : Q := ⟨a.num * b.num, a.den * b.den, mul_pos a.pos b.pos⟩

/-- Division; division by zero yields zero (never exercised on the
modelled code paths). -/
def div (a b : Q) : Q :=
  if h : 0 < b.num then ⟨a.num * b.den, a.den * b.num, mul_pos a.pos h⟩
  else if h2 : b.num < 0 then ⟨-(a.num * b.den), a.den * (-b.num), mul_pos a.pos (by omega)⟩
  else ofInt 0

def lt (a b : Q) : Prop := a.num * b.den < b.num * a.den

def le (a b : Q) : Prop := a.num * b.den ≤ b.num * a.den

instance (a b : Q) : Decidable (lt a b) := by unfold lt; infer_instance

instance (a b : Q) : Decidable (le a b) := by unfold le; infer_instance

instance : DecidableEq Q := fun a b =>
  if h1 : a.num = b.num then
    if h2 : a.den = b.den then
      isTrue (by cases a; cases b; simp_all)
    else isFalse (by intro h; cases h; exact h2 rfl)
  else isFalse (by intro h; cases h; exact h1 rfl)

/-- Mathematical floor (denominator is positive, so `Int.fdiv` is the
real floor). -/
def floor (a : Q) : ℤ := Int.fdiv a.num a.den

/-- Semantic equality of fractions. -/
def eqv (a b : Q) : Prop := a.num * b.den = b.num * a.den

instance (a b : Q) : Decidable (eqv a b) := by unfold eqv; infer_instance

/-- Interpretation into `ℚ`. -/
def toRat (a : Q) : ℚ := (a.num : ℚ) / (a.den : ℚ)

theorem den_ne (a : Q) : (a.den : ℚ) ≠ 0 := by
  exact_mod_cast Int.ne_of_gt a.pos

theorem toRat_ofInt (n : ℤ) : (ofInt n).toRat = (n : ℚ) := by
  simp [ofInt, toRat]

theorem toRat_ofNat (n : ℕ) : (ofNat n).toRat = (n : ℚ) := by
  simp [ofNat, toRat_ofInt]

theorem toRat_add (a b : Q) : (add a b).toRat = a.toRat + b.toRat := by
  unfold add toRat
  rw [div_add_div _ _ (den_ne a) (den_ne b)]
  push_cast
  ring_nf

theorem toRat_neg (a : Q) : (neg a).toRat = -a.toRat := by
  unfold neg toRat
  push_cast
  rw [neg_div]

theorem toRat_sub (a b : Q) : (sub a b).toRat = a.toRat - b.toRat := by
  unfold sub
  rw [toRat_add, toRat_neg, sub_eq_add_neg]

theorem toRat_mul (a b : Q) : (mul a b).toRat = a.toRat * b.toRat := by
  unfold mul toRat
  rw [div_mul_div_comm]
  push_cast
  rfl

theorem toRat_div (a b : Q) (h : b.num ≠ 0) : (div a b).toRat = a.toRat / b.toRat := by
  unfold div toRat
  rcases lt_trichotomy b.num 0 with hn | hn | hn
  · have : ¬ (0 < b.num) := by omega
    simp only [this, dif_neg, hn, dif_pos]
    have hbq : (b.num : ℚ) ≠ 0 := by exact_mod_cast h
    field_simp
  · exact absurd hn h
  · simp only [hn, dif_pos]
    have hbq : (b.num : ℚ) ≠ 0 := by exact_mod_cast h
    field_simp

theorem lt_iff (a b : Q) : lt a b ↔ a.toRat < b.toRat := by
  unfold lt toRat
  rw [div_lt_div_iff₀ (by exact_mod_cast a.pos) (by exact_mod_cast b.pos)]
  exact_mod_cast Iff.rfl

theorem le_iff (a b : Q) : le a b ↔ a.toRat ≤ b.toRat := by
  unfold le toRat
  rw [div_le_div_iff₀ (by exact_mod_cast a.pos) (by exact_mod_cast b.pos)]
  exact_mod_cast Iff.rfl

theorem eqv_iff (a b : Q) : eqv a b ↔ a.toRat = b.toRat := by
  unfold eqv toRat
  rw [div_eq_div_iff (den_ne a) (den_ne b)]
  exact_mod_cast Iff.rfl

theorem floor_toRat (a : Q) : a.floor = ⌊a.toRat⌋ := by
  unfold floor toRat
  rw [Int.fdiv_eq_ediv _ (Int.le_of_lt a.pos)]
  obtain ⟨d, hd⟩ : ∃ d : ℕ, a.den = (d : ℤ) := ⟨a.den.toNat, (Int.toNat_of_nonneg (Int.le_of_lt a.pos)).symm⟩
  rw [hd]
  push_cast
  exact (Rat.floor_intCast_div_natCast a.num d).symm

end Q

/-! ## IEEE-754 binary64 model (Python float semantics)

Python floats are IEEE-754 doubles.  We model a double by the exact
rational it denotes; each arithmetic operation computes the exact
rational result and rounds it to 53 significant bits with
round-to-nearest, ties-to-even.  Overflow and subnormals never occur in
the ranges used by this program, so they are not modelled. -/

/-- Scale `v` up by doublings until it reaches `2^52`, tracking the
binary exponent shift.  Fuel bounds the recursion; 4500 covers the whole
double range. -/
def upScale : ℕ → Q → ℤ → Q × ℤ
  | 0, v, k => (v, k)
  | n + 1, v, k =>
    if Q.lt v (Q.ofInt (2 ^ (52 : ℕ))) then upScale n (Q.mul (Q.ofInt 2) v) (k + 1) else (v, k)

/-- Scale `v` down by halvings until it is below `2^53`, tracking the
binary exponent shift. -/
def downScale : ℕ → Q → ℤ → Q × ℤ
  | 0, v, k => (v, k)
  | n + 1, v, k =>
    if Q.le (Q.ofInt (2 ^ (53 : ℕ))) v then downScale n (Q.div v (Q.ofInt 2)) (k - 1) else (v, k)

/-- `m * 2^e` as an exact rational. -/
def mulPow2 (m : ℤ) (e : ℤ) : Q :=
  if 0 ≤ e then Q.ofInt (m * 2 ^ e.toNat)
  else ⟨m, 2 ^ (-e).toNat, pow_pos (by omega) _⟩

/-- Round a positive rational to the nearest 53-bit significand value,
ties to even. -/
def roundPos (q : Q) : Q :=
  let p := upScale 4500 q 0
  let p2 := downScale 4500 p.1 p.2
  let n : ℤ := p2.1.floor
  let f : Q := Q.sub p2.1 (Q.ofInt n)
  let half : Q := ⟨1, 2, by omega⟩
  let m : ℤ :=
    if Q.lt f half then n
    else if Q.lt half f then n + 1
    else if n % 2 = 0 then n else n + 1
  mulPow2 m (-p2.2)

/-- Round an exact rational to the nearest IEEE-754 double
(round-to-nearest, ties-to-even). -/
def roundNE (q : Q) : Q :=
  if q.num = 0 then Q.ofInt 0
  else if q.num < 0 then Q.neg (roundPos (Q.neg q)) else roundPos q

/-- Python float addition. -/
def fadd (a b : Q) : Q := roundNE (Q.add a b)

/-- Python float subtraction. -/
def fsub (a b : Q) : Q := roundNE (Q.sub a b)

/-- Python float multiplication. -/
def fmul (a b : Q) : Q := roundNE (Q.mul a b)

/-- Python float true division. -/
def fdiv (a b : Q) : Q := roundNE (Q.div a b)

/-- Python `float(n)` for an `int` operand (promotion before a mixed
int/float operation). -/
def floatOfInt (n : ℤ) : Q := roundNE (Q.ofInt n)

/-- Python `int(x)` on a float: truncation toward zero. -/
def pyTrunc (x : Q) : ℤ := if x.num < 0 then -(Q.neg x).floor else x.floor

/-! ## Token / DEX registry (swap_executor.py, module constants) -/

/-- `TOKEN_ADDRESSES` from swap_executor.py. -/
def TOKEN_ADDRESSES : List (String × String) :=
  [("ETH", "0xEeeeeEeeeEeEeeEeEeEeeEEEeeeeEeeeeeeeEEeE"),
   ("WETH", "0xC02aaA39b223FE8D0A0e5C4F27eAD9083C756Cc2"),
   ("USDC", "0xA0b86991c6218b36c1d19D4a2e9Eb0cE3606eB48"),
   ("USDT", "0xdAC17F958D2ee523a2206206994597C13D831ec7"),
   ("DAI", "0x6B175474E89094C44Da98b954EedeAC495271d0F"),
   ("WBTC", "0x2260FAC5E5542a773Aa44fBCfeDf7C193bc2C599")]

/-- `DEX_ROUTER_ADDRESSES` from swap_executor.py. -/
def DEX_ROUTER_ADDRESSES : List (String × String) :=
  [("Uniswap V2", "0x7a250d5630B4cF539739dF2C5dAcb4c659F2488D"),
   ("Uniswap V3", "0xE592427A0AEce92De3Edee1F18E0157C05861564"),
   ("SushiSwap", "0xd9e1cE17f2641f24aE83637ab66a2cca9C378B9F"),
   ("1inch", "0x1111111254fb6c44bAC0beD2854e76F90643097d")]

/-- Dictionary lookup (`d[k]` / `k in d`). -/
def lookup (d : List (String × String)) (k : String) : Option String :=
  (d.find? (fun p => p.1 == k)).map (·.2)

/-- Python membership test `k in d`. -/
def mem (d : List (String × String)) (k : String) : Bool :=
  (lookup d k).isSome

/-! ## Minimum acceptable output (swap_executor.py line 417)

`amount_out_min = int(amount_in_wei * (1 - slippage / 100))` where
`amount_in_wei` is a Python `int` and `slippage` a Python `float`
(its exact rational value is the `slippage` argument below). -/

/-- The code's computation of the slippage-bounded minimum output, in
exact IEEE-754 double semantics. -/
def amountOutMin (amountInWei : ℤ) (slippage : Q) : ℤ :=
  pyTrunc (fmul (floatOfInt amountInWei) (fsub (Q.ofInt 1) (fdiv slippage (Q.ofInt 100))))

/-- The specification's formula: the exact integer floor of
`amount_in_smallest_unit * (1 - slippage_pct / 100)`, in exact rational
arithmetic. -/
def specMinOut (amountInWei : ℤ) (slippage : Q) : ℤ :=
  (Q.mul (Q.ofInt amountInWei) (Q.sub (Q.ofInt 1) (Q.div slippage (Q.ofInt 100)))).floor

/-- Sanity bridge: `specMinOut` is the genuine mathematical floor of
`a * (1 - s/100)` over `ℚ`. -/
theorem specMinOut_eq_floor (a : ℤ) (s : Q) :
    specMinOut a s = ⌊(a : ℚ) * (1 - s.toRat / 100)⌋ := by
  unfold specMinOut
  rw [Q.floor_toRat, Q.toRat_mul, Q.toRat_sub, Q.toRat_ofInt, Q.toRat_ofInt,
    Q.toRat_div s (Q.ofInt 100) (by decide), Q.toRat_ofInt]
  norm_num

/-! ## SwapExecutor (swap_executor.py)

The executor's chain collaborators (web3 RPC: balances, decimals,
checksum validation, gas estimation, broadcast, receipts) are abstracted
into an environment record `Env`; every RPC interaction of interest is
recorded as an event so that ordering properties can be stated.  Wallet
state (`self.account` / `self.address`) is the `Cfg.account` field. -/

/-- Executor instance state: the loaded wallet address (if any),
the instance-level `test_mode`, and the chain id. -/
structure Cfg where
  account : Option String
  testMode : Bool
  chainId : ℕ
deriving DecidableEq, Repr

/-- The chain-RPC collaborators, as pure oracles. -/
structure Env where
  ethBalance : Q
  tokenBalance : String → Q
  tokenDecimals : String → ℕ
  checksumOk : String → Bool
  swapGasEstimate : Option ℕ
  approveGasEstimate : Option ℕ
  gasPrice : ℕ
  nonce : ℕ
  now : ℕ
  txHash : String
  receiptStatus : ℕ

/-- Observable effects of the executor, in program order. -/
inductive Ev
  | balanceQuery (token : String)
  | decimalsQuery (token : String)
  | approveGasEstimateCall (token dex : String) (amount : ℕ)
  | approveBuild (token dex : String) (amount : ℕ)
  | approveSend
  | approveWait (timeoutSecs : ℕ)
  | swapBuild (entryPoint : String)
  | swapSend
  | swapWait (timeoutSecs : ℕ)
deriving DecidableEq, Repr

/-- Caller-visible failures (Python exceptions), tagged with the token /
dex / reason they mention. -/
inductive Err
  | noWallet
  | invalidDestination (addr : String)
  | unknownToken (token : String)
  | unknownSourceToken (token : String)
  | unknownDestToken (token : String)
  | insufficientBalance (token : String)
  | unknownDex (dex : String)
  | rpcFailure
deriving DecidableEq, Repr

/-- The double nearest `1.2` (the gas safety-margin literal). -/
def c1_2 : Q := roundNE ⟨6, 5, by omega⟩

/-- `int(gas_estimate * 1.2)`: the 20% gas margin in float arithmetic. -/
def gasWithMargin (g : ℕ) : ℤ := pyTrunc (fmul (floatOfInt (g : ℤ)) c1_2)

/-- `SwapExecutor.approve_token`. -/
def approve_token (cfg : Cfg) (env : Env) (tokenSymbol dexName : String)
    (amount : Option ℕ) : Except Err Bool × List Ev :=
  if cfg.account.isNone then (Except.error Err.noWallet, [])
  else if tokenSymbol == "ETH" then (Except.ok true, [])
  else if !mem TOKEN_ADDRESSES tokenSymbol then
    (Except.error (Err.unknownToken tokenSymbol), [])
  else if !mem DEX_ROUTER_ADDRESSES dexName then
    (Except.error (Err.unknownDex dexName), [])
  else
    let approvalAmount : ℕ := amount.getD (2 ^ 256 - 1)
    match env.approveGasEstimate with
    | none =>
      (Except.error Err.rpcFailure,
        [Ev.approveGasEstimateCall tokenSymbol dexName approvalAmount])
    | some _ =>
      let evs := [Ev.approveGasEstimateCall tokenSymbol dexName approvalAmount,
                  Ev.approveBuild tokenSymbol dexName approvalAmount]
      if cfg.testMode then (Except.ok true, evs)
      else
        (Except.ok (env.receiptStatus == 1),
          evs ++ [Ev.approveSend, Ev.approveWait 120])

/-- The unsigned swap transaction dictionary returned by
`generate_swap_transaction` (the fields the code computes, plus the
`details` payload it attaches). -/
structure SwapTx where
  entryPoint : String
  amountIn : ℤ
  minOut : ℤ
  path : List String
  destination : String
  deadline : ℕ
  gas : ℤ
  value : ℤ
  nonce : ℕ
  chainId : ℕ
  testFlag : Bool
deriving DecidableEq, Repr

/-- `web3.to_wei(amount, 'ether')` (exact decimal conversion inside
web3, abstracted as exact multiplication by `10^18` then truncation). -/
def toWei (amount : Q) : ℤ := pyTrunc (Q.mul amount (Q.ofInt (10 ^ (18 : ℕ))))

/-- `SwapExecutor.generate_swap_transaction`.  Follows the source's
check-and-build order exactly; each chain read appears in the event
trace. -/
def generate_swap_transaction (cfg : Cfg) (env : Env) (from_token to_token : String)
    (amount : Q) (dex_name : String) (slippage : Q) (destination_address : Option String) :
    Except Err SwapTx × List Ev :=
  match cfg.account with
  | none => (Except.error Err.noWallet, [])
  | some selfAddr =>
    let destination := destination_address.getD selfAddr
    if destination ≠ "" ∧ env.checksumOk destination = false then
      (Except.error (Err.invalidDestination destination), [])
    else if !mem TOKEN_ADDRESSES from_token && from_token != "ETH" then
      (Except.error (Err.unknownSourceToken from_token), [])
    else if !mem TOKEN_ADDRESSES to_token && to_token != "ETH" then
      (Except.error (Err.unknownDestToken to_token), [])
    else
      let balance : Q := if from_token == "ETH" then env.ethBalance
        else env.tokenBalance from_token
      let balEv : Ev := Ev.balanceQuery (if from_token == "ETH" then "ETH" else from_token)
      if Q.lt balance amount then
        (Except.error (Err.insufficientBalance from_token), [balEv])
      else if !mem DEX_ROUTER_ADDRESSES dex_name then
        (Except.error (Err.unknownDex dex_name), [balEv])
      else
        let weth := (lookup TOKEN_ADDRESSES "WETH").getD ""
        let path : List String :=
          [if from_token == "ETH" then weth else (lookup TOKEN_ADDRESSES from_token).getD "",
           if to_token == "ETH" then weth else (lookup TOKEN_ADDRESSES to_token).getD ""]
        let deadline := env.now + 30 * 60
        let amountIn : ℤ :=
          if from_token == "ETH" then toWei amount
          else pyTrunc (fmul amount (floatOfInt ((10 : ℤ) ^ env.tokenDecimals from_token)))
        let decEvs : List Ev :=
          if from_token == "ETH" then [] else [Ev.decimalsQuery from_token]
        let minOut : ℤ := amountOutMin amountIn slippage
        let entry : String :=
          if from_token == "ETH" && to_token != "ETH" then "swapExactETHForTokens"
          else if from_token != "ETH" && to_token == "ETH" then "swapExactTokensForETH"
          else "swapExactTokensForTokens"
        let value : ℤ := if from_token == "ETH" && to_token != "ETH" then amountIn else 0
        let gas : ℤ := match env.swapGasEstimate with
          | some g => gasWithMargin g
          | none => 300000
        let tx : SwapTx :=
          { entryPoint := entry, amountIn := amountIn, minOut := minOut,
            path := path, destination := destination, deadline := deadline,
            gas := gas, value := value, nonce := env.nonce,
            chainId := cfg.chainId, testFlag := cfg.testMode }
        (Except.ok tx, [balEv] ++ decEvs ++ [Ev.swapBuild entry])

/-- `SwapExecutor.execute_swap`.  Returns the transaction hash
(`some hash`), the placeholder `"test_tx_hash"` in simulate mode, or
`none` when the receipt reports failure; exceptions propagate as
`Except.error`. -/
def execute_swap (cfg : Cfg) (env : Env) (from_token to_token : String) (amount : Q)
    (dex_name : String) (slippage : Q) (destination_address : Option String)
    (test_mode : Option Bool) : Except Err (Option String) × List Ev :=
  let tm := test_mode.getD cfg.testMode
  if cfg.account.isNone then (Except.error Err.noWallet, [])
  else
    match generate_swap_transaction cfg env from_token to_token amount dex_name slippage
        destination_address with
    | (Except.error e, evs) => (Except.error e, evs)
    | (Except.ok _, evs) =>
      if tm then (Except.ok (some "test_tx_hash"), evs)
      else
        let evs2 := evs ++ [Ev.swapSend, Ev.swapWait 300]
        if env.receiptStatus == 1 then (Except.ok (some env.txHash), evs2)
        else (Except.ok none, evs2)

/-! ## Chain-data fetcher retry loop (data_fetcher.py, make_alchemy_request)

One request attempt has four relevant outcomes: the HTTP/transport layer
raises `requests.exceptions.RequestException` (this includes non-200
status codes, via `raise_for_status`), the JSON-RPC body carries a
rate-limit error, the body carries some other error, or the call
succeeds. -/

/-- Outcome of one HTTP attempt against the Alchemy endpoint. -/
inductive FetchOut
  | success (response : String)
  | apiRateLimit
  | apiOther
  | reqException
deriving DecidableEq, Repr

/-- Result of the retry loop: the returned value (`none` models Python's
`return None`), the argument of each `time.sleep` call in order, and the
number of HTTP requests issued. -/
structure FetchRes where
  result : Option String
  sleeps : List ℕ
  attempts : ℕ
deriving DecidableEq, Repr

/-- The `for attempt in range(max_retries)` body of
`make_alchemy_request`; `fuel` is the number of remaining loop
iterations and `attempt` the current index. -/
def fetchAux (env : ℕ → FetchOut) : ℕ → ℕ → FetchRes
  | 0, _ => ⟨none, [], 0⟩
  | fuel + 1, attempt =>
    match env attempt with
    | FetchOut.success r => ⟨some r, [], 1⟩
    | FetchOut.apiOther => ⟨none, [], 1⟩
    | FetchOut.apiRateLimit =>
      let rest := fetchAux env fuel (attempt + 1)
      ⟨rest.result, (2 ^ attempt * 2) :: rest.sleeps, rest.attempts + 1⟩
    | FetchOut.reqException =>
      if attempt < 3 - 1 then
        let rest := fetchAux env fuel (attempt + 1)
        ⟨rest.result, 2 :: rest.sleeps, rest.attempts + 1⟩
      else ⟨none, [], 1⟩

/-- `make_alchemy_request` with `max_retries = 3`. -/
def make_alchemy_request (env : ℕ → FetchOut) : FetchRes := fetchAux env 3 0

/-! ## Query parser (query_engine.py, parse_swap_query)

The two regular expressions of `parse_swap_query` are embedded as
deterministic scanners over `List Char`.  The patterns involved
(`(?:from|swap|convert|exchange)\\s+(\\d+(?:\\.\\d+)?)?\\s*([A-Za-z]+)\\s+(?:to|for|into)\\s+([A-Za-z]+)`
and `(\\d+(?:\\.\\d+)?)\\s*([A-Za-z]+)`) need no backtracking: the
alternations have pairwise distinct first letters, every quantified
class (digits, whitespace, letters) is disjoint from the class that
follows it, and a shorter greedy match always leaves a character that
the next part of the pattern rejects.  `re.search` semantics is the
first start index at which the pattern matches.  ASCII input is
assumed (the character classes in the patterns are ASCII). -/

/-- Python `\\s` (ASCII): space, tab, newline, carriage return,
vertical tab, form feed. -/
def isSpacePy (c : Char) : Bool :=
  c.toNat == 32 || c.toNat == 9 || c.toNat == 10 || c.toNat == 13 ||
  c.toNat == 11 || c.toNat == 12

/-- The regex class `[A-Z]`. -/
def isUpperA (c : Char) : Bool := 65 ≤ c.toNat && c.toNat ≤ 90

/-- The regex class `[A-Za-z]`. -/
def isAlphaA (c : Char) : Bool :=
  (65 ≤ c.toNat && c.toNat ≤ 90) || (97 ≤ c.toNat && c.toNat ≤ 122)

/-- The regex class `\\d` (ASCII). -/
def isDigitA (c : Char) : Bool := 48 ≤ c.toNat && c.toNat ≤ 57

/-- Python `str.upper()` on one character (ASCII). -/
def upperChar (c : Char) : Char :=
  if 97 ≤ c.toNat ∧ c.toNat ≤ 122 then Char.ofNat (c.toNat - 32) else c

/-- Python `str.upper()` (ASCII). -/
def upperL (cs : List Char) : List Char := cs.map upperChar

/-- Split into the maximal prefix satisfying `p` and the remainder. -/
def splitWhile (p : Char → Bool) (cs : List Char) : List Char × List Char :=
  (cs.takeWhile p, cs.dropWhile p)

/-- Case-insensitive match of an input character against a lowercase
pattern letter `k` (`re.IGNORECASE`): the input is `k` itself or its
uppercase counterpart. -/
def lowEq (k c : Char) : Bool := c.toNat == k.toNat || c.toNat + 32 == k.toNat

/-- Match a literal (lowercase) pattern word case-insensitively,
returning the remainder of the input. -/
def matchLit : List Char → List Char → Option (List Char)
  | [], cs => some cs
  | _ :: _, [] => none
  | k :: ks, c :: cs => if lowEq k c then matchLit ks cs else none

/-- Try the alternatives of an alternation in order (they have pairwise
distinct first letters, so at most one can match at a position). -/
def matchAlts (alts : List (List Char)) (cs : List Char) : Option (List Char) :=
  match alts with
  | [] => none
  | a :: rest =>
    match matchLit a cs with
    | some r => some r
    | none => matchAlts rest cs

/-- The verb cues of the directional pattern. -/
def dirKeywords : List (List Char) :=
  ["from".toList, "swap".toList, "convert".toList, "exchange".toList]

/-- The transition cues of the directional pattern. -/
def dirTransitions : List (List Char) := ["to".toList, "for".toList, "into".toList]

/-- Numeric value of a digit string. -/
def digitsVal (ds : List Char) : ℕ :=
  ds.foldl (fun acc c => acc * 10 + (c.toNat - 48)) 0

/-- Exact value of `float("<int>.<frac>")` digits (the binary rounding
performed by Python `float` is irrelevant to the claims and omitted). -/
def qOfDigits (intPart fracPart : List Char) : Q :=
  ⟨(digitsVal intPart * 10 ^ fracPart.length + digitsVal fracPart : ℕ),
   (10 ^ fracPart.length : ℕ), by positivity⟩

/-- `(\\d+(?:\\.\\d+)?)` anchored at the start: the parsed number (if the
input starts with a digit) and the remainder. -/
def amtSplit (cs : List Char) : Option Q × List Char :=
  let sd := splitWhile isDigitA cs
  if sd.1.isEmpty then (none, cs)
  else
    match sd.2 with
    | '.' :: r3 =>
      let sf := splitWhile isDigitA r3
      if sf.1.isEmpty then (some (qOfDigits sd.1 []), sd.2)
      else (some (qOfDigits sd.1 sf.1), sf.2)
    | _ => (some (qOfDigits sd.1 []), sd.2)

/-- A successful directional match: the optional amount (group 1) and
the raw source/destination words (groups 2 and 3). -/
structure DirMatch where
  amount : Option Q
  srcTok : List Char
  dstTok : List Char
deriving DecidableEq

/-- Attempt the directional pattern anchored at the start of `cs`. -/
def matchDirAt (cs : List Char) : Option DirMatch :=
  match matchAlts dirKeywords cs with
  | none => none
  | some r0 =>
    let s1 := splitWhile isSpacePy r0
    if s1.1.isEmpty then none
    else
      let ar := amtSplit s1.2
      let s2 := splitWhile isSpacePy ar.2
      let sl2 := splitWhile isAlphaA s2.2
      if sl2.1.isEmpty then none
      else
        let s3 := splitWhile isSpacePy sl2.2
        if s3.1.isEmpty then none
        else
          match matchAlts dirTransitions s3.2 with
          | none => none
          | some r8 =>
            let s4 := splitWhile isSpacePy r8
            if s4.1.isEmpty then none
            else
              let sl3 := splitWhile isAlphaA s4.2
              if sl3.1.isEmpty then none
              else some ⟨ar.1, sl2.1, sl3.1⟩

/-- `re.search` of the directional pattern: first start index wins. -/
def searchDir : List Char → Option DirMatch
  | [] => none
  | c :: cs =>
    match matchDirAt (c :: cs) with
    | some m => some m
    | none => searchDir cs

/-- Attempt the amount pattern anchored at the start of `cs`; returns
the amount and the adjacent word (group 2). -/
def matchAmtAt (cs : List Char) : Option (Q × List Char) :=
  let ar := amtSplit cs
  match ar.1 with
  | none => none
  | some q =>
    let s2 := splitWhile isSpacePy ar.2
    let sw := splitWhile isAlphaA s2.2
    if sw.1.isEmpty then none else some (q, sw.1)

/-- `re.search` of the amount pattern. -/
def searchAmt : List Char → Option (Q × List Char)
  | [] => none
  | c :: cs =>
    match matchAmtAt (c :: cs) with
    | some m => some m
    | none => searchAmt cs

/-- Maximal runs of uppercase letters (`re.findall` of `[A-Z]{2,}` is
these runs filtered to length at least 2).  `acc` is the reversed
current run. -/
def runsAux : List Char → List Char → List (List Char)
  | [], acc => if acc.isEmpty then [] else [acc.reverse]
  | c :: cs, acc =>
    if isUpperA c then runsAux cs (c :: acc)
    else if acc.isEmpty then runsAux cs []
    else acc.reverse :: runsAux cs []

/-- `re.findall(r'[A-Z]\x7b2,\x7d', query.upper())`. -/
def tickerTokens (cs : List Char) : List (List Char) :=
  (runsAux (upperL cs) []).filter (fun r => 2 ≤ r.length)

/-- `parse_swap_query` from query_engine.py. -/
def parse_swap_query (query : String) : Option (List Char) × Option (List Char) × Option Q :=
  match searchDir query.toList with
  | some m => (some (upperL m.srcTok), some (upperL m.dstTok), m.amount)
  | none =>
    let tokens := tickerTokens query.toList
    match tokens, searchAmt query.toList with
    | t0 :: t1 :: _, some nw =>
      if upperL nw.2 = t0 then (some t0, some t1, some nw.1)
      else (some t0, some t1, none)
    | t0 :: t1 :: _, none => (some t0, some t1, none)
    | _, _ => (none, none, none)

/-! ## Historical path ranker (vector_store.py, get_optimal_swap_paths)

The similarity-search collaborator's matches are the input list; rates
are exact rationals (`Q`); the Python dict over keys
`f"\x7bpath\x7d on \x7bdex\x7d"` is an insertion-ordered association
list; `sorted(..., key=lambda x: (x["avgRate"], x["count"]),
reverse=True)` is a stable descending sort, modelled by an insertion
sort that computes exactly the same (unique) stable descending
permutation. -/

/-- One similarity-search match (the fields `get_optimal_swap_paths`
reads). -/
structure SwapRec where
  path : String
  dex : String
  swapRate : Q
  txHash : String

/-- Aggregated statistics per `(path, dex)` key. -/
structure PathStat where
  path : String
  dex : String
  count : ℕ
  rates : List Q
  txHashes : List String
  bestRate : Q
  avgRate : Q

/-- The dict key `f"\x7bpath\x7d on \x7bdex\x7d"`. -/
def statKey (p d : String) : String := p ++ " on " ++ d

/-- The per-match update of an entry's statistics. -/
def updateStat (st : PathStat) (swap : SwapRec) : PathStat :=
  let st1 := { st with count := st.count + 1 }
  let st2 :=
    if Q.lt (Q.ofInt 0) swap.swapRate then
      let newBest := if Q.lt st1.bestRate swap.swapRate then swap.swapRate else st1.bestRate
      { st1 with rates := st1.rates ++ [swap.swapRate], bestRate := newBest }
    else st1
  { st2 with txHashes := st2.txHashes ++ [swap.txHash] }

/-- A fresh, blank entry for a key. -/
def blankStat (s : SwapRec) : PathStat :=
  ⟨s.path, s.dex, 0, [], [], Q.ofInt 0, Q.ofInt 0⟩

/-- The grouping loop over matches (insertion-ordered dict). -/
def aggAux : List SwapRec → List (String × PathStat) → List (String × PathStat)
  | [], acc => acc
  | s :: rest, acc =>
    let key := statKey s.path s.dex
    let acc1 := if (acc.find? (fun p => p.1 == key)).isSome then acc
      else acc ++ [(key, blankStat s)]
    let acc2 := acc1.map (fun p => if p.1 == key then (p.1, updateStat p.2 s) else p)
    aggAux rest acc2

/-- Python `sum` over rationals. -/
def qSum (l : List Q) : Q := l.foldl Q.add (Q.ofInt 0)

/-- The average-rate pass (`avgRate` stays 0 for an empty rate list). -/
def avgFix (st : PathStat) : PathStat :=
  if st.rates.isEmpty then st
  else { st with avgRate := Q.div (qSum st.rates) (Q.ofNat st.rates.length) }

/-- Strict comparison of the sort keys `(avgRate, count)` (Python tuple
comparison with float equality). -/
def keyGt (a b : PathStat) : Prop :=
  Q.lt b.avgRate a.avgRate ∨ (Q.eqv a.avgRate b.avgRate ∧ b.count < a.count)

instance (a b : PathStat) : Decidable (keyGt a b) := by unfold keyGt; infer_instance

/-- Insert into a descending list, after strictly greater entries and
before everything else (earlier input goes first among equal keys,
matching a stable descending sort). -/
def insertDesc (x : PathStat) : List PathStat → List PathStat
  | [] => [x]
  | y :: ys => if keyGt y x then y :: insertDesc x ys else x :: y :: ys

/-- Stable descending sort by `(avgRate, count)` — the function computed
by `sorted(..., key=..., reverse=True)`. -/
def sortDesc (l : List PathStat) : List PathStat := l.foldr insertDesc []

/-- `get_optimal_swap_paths` from vector_store.py, as a function of the
similarity-search matches. -/
def get_optimal_swap_paths (ms : List SwapRec) : List PathStat :=
  sortDesc ((aggAux ms []).map (fun p => avgFix p.2))

/-! ## Advice decision extraction (query_engine.py, get_best_swap_path
lines 204-212)

`re.search(r'\\\x7b.*\\\x7d', llm_advice, re.DOTALL)` matches iff the text
has a `\x7b` with some `\x7d` after it; the leftmost such `\x7b` starts the
match and the greedy `.*` extends it to the last `\x7d` of the text.  The
block is then fed to `json.loads`, whose grammar is modelled by the
recursive-descent `pVal` below (objects, arrays, strings with escapes,
numbers, literals; trailing garbage rejected).  `json.loads` raises
`json.JSONDecodeError` on a malformed block; there is no handler. -/

/-- JSON values (numbers as exact rationals). -/
inductive JVal
  | jnull
  | jbool (b : Bool)
  | jnum (n : Q)
  | jstr (s : List Char)
  | jarr (xs : List JVal)
  | jobj (members : List (List Char × JVal))

/-- JSON whitespace. -/
def isWsJson (c : Char) : Bool :=
  c == ' ' || c == Char.ofNat 9 || c == Char.ofNat 10 || c == Char.ofNat 13

def skipWs (cs : List Char) : List Char := cs.dropWhile isWsJson

/-- Hexadecimal digit value. -/
def hexVal (c : Char) : Option ℕ :=
  if c.isDigit then some (c.toNat - 48)
  else if 'a' ≤ c ∧ c ≤ 'f' then some (c.toNat - 87)
  else if 'A' ≤ c ∧ c ≤ 'F' then some (c.toNat - 55)
  else none

/-- JSON string body after the opening quote; surrogate pairs are not
recombined (irrelevant to the claims).  Fuel-structural (each step
consumes input) so concrete runs reduce inside the kernel. -/
def pStrAux : ℕ → List Char → List Char → Option (List Char × List Char)
  | 0, _, _ => none
  | _ + 1, acc, '"' :: r => some (acc.reverse, r)
  | fuel + 1, acc, '\\' :: e :: r =>
    if e == '"' then pStrAux fuel ('"' :: acc) r
    else if e == '\\' then pStrAux fuel ('\\' :: acc) r
    else if e == '/' then pStrAux fuel ('/' :: acc) r
    else if e == 'b' then pStrAux fuel (Char.ofNat 8 :: acc) r
    else if e == 'f' then pStrAux fuel (Char.ofNat 12 :: acc) r
    else if e == 'n' then pStrAux fuel (Char.ofNat 10 :: acc) r
    else if e == 'r' then pStrAux fuel (Char.ofNat 13 :: acc) r
    else if e == 't' then pStrAux fuel (Char.ofNat 9 :: acc) r
    else if e == 'u' then
      match r with
      | h1 :: h2 :: h3 :: h4 :: r2 =>
        match hexVal h1, hexVal h2, hexVal h3, hexVal h4 with
        | some a, some b, some c, some d =>
          pStrAux fuel (Char.ofNat (((a * 16 + b) * 16 + c) * 16 + d) :: acc) r2
        | _, _, _, _ => none
      | _ => none
    else none
  | fuel + 1, acc, c :: r => if c.toNat < 32 then none else pStrAux fuel (c :: acc) r
  | _ + 1, _, [] => none

/-- JSON number (sign, integer part with the leading-zero rule,
optional fraction and exponent), returning its exact value. -/
def pNum (cs : List Char) : Option (Q × List Char) :=
  let sgn : ℤ × List Char := match cs with
    | '-' :: r => (-1, r)
    | _ => (1, cs)
  let sdi := splitWhile isDigitA sgn.2
  if sdi.1.isEmpty then none
  else
    let ip : List Char × List Char :=
      match sdi.1 with
      | '0' :: _ :: _ => (['0'], (sdi.1.drop 1) ++ sdi.2)
      | _ => sdi
    let fr : List Char × List Char :=
      match ip.2 with
      | '.' :: r =>
        let sf := splitWhile isDigitA r
        if sf.1.isEmpty then ([], ip.2) else (sf.1, sf.2)
      | _ => ([], ip.2)
    let ex : ℤ × List Char :=
      match fr.2 with
      | 'e' :: r | 'E' :: r =>
        let se : ℤ × List Char := match r with
          | '-' :: r2 => (-1, r2)
          | '+' :: r2 => (1, r2)
          | _ => (1, r)
        let sd := splitWhile isDigitA se.2
        if sd.1.isEmpty then (0, fr.2) else (se.1 * (digitsVal sd.1 : ℤ), sd.2)
      | _ => (0, fr.2)
    let mant : ℤ := sgn.1 * (digitsVal (ip.1 ++ fr.1) : ℤ)
    let v : Q :=
      if 0 ≤ ex.1 then
        ⟨mant * (10 : ℤ) ^ ex.1.toNat, (10 : ℤ) ^ fr.1.length, by positivity⟩
      else
        ⟨mant, (10 : ℤ) ^ fr.1.length * (10 : ℤ) ^ (-ex.1).toNat, by positivity⟩
    some (v, ex.2)

/-- Parsing mode: a single value, the members of an object (up to and
including the closing brace), or the items of an array (up to and
including the closing bracket). -/
inductive PMode
  | val
  | members
  | items

/-- Recursive-descent core of the `json.loads` grammar, structural on
fuel (one combined function so that concrete runs reduce inside the
kernel).  In `members`/`items` mode the collected fields/elements are
returned wrapped in `jobj`/`jarr`. -/
def pStep : ℕ → PMode → List Char → Option (JVal × List Char)
  | 0, _, _ => none
  | fuel + 1, PMode.val, cs =>
    (match skipWs cs with
     | '\x7b' :: rest =>
       (match skipWs rest with
        | '\x7d' :: r2 => some (JVal.jobj [], r2)
        | r => pStep fuel PMode.members r)
     | '[' :: rest =>
       (match skipWs rest with
        | ']' :: r2 => some (JVal.jarr [], r2)
        | r => pStep fuel PMode.items r)
     | '"' :: rest => (pStrAux (rest.length + 1) [] rest).map (fun p => (JVal.jstr p.1, p.2))
     | 't' :: 'r' :: 'u' :: 'e' :: r => some (JVal.jbool true, r)
     | 'f' :: 'a' :: 'l' :: 's' :: 'e' :: r => some (JVal.jbool false, r)
     | 'n' :: 'u' :: 'l' :: 'l' :: r => some (JVal.jnull, r)
     | rest => (pNum rest).map (fun p => (JVal.jnum p.1, p.2)))
  | fuel + 1, PMode.members, cs =>
    (match skipWs cs with
     | '"' :: rest =>
       (match pStrAux (rest.length + 1) [] rest with
        | none => none
        | some (name, r2) =>
          (match skipWs r2 with
           | ':' :: r3 =>
             (match pStep fuel PMode.val r3 with
              | none => none
              | some (v, r4) =>
                (match skipWs r4 with
                 | ',' :: r5 =>
                   (match pStep fuel PMode.members r5 with
                    | some (JVal.jobj ms, r6) => some (JVal.jobj ((name, v) :: ms), r6)
                    | _ => none)
                 | '\x7d' :: r5 => some (JVal.jobj [(name, v)], r5)
                 | _ => none))
           | _ => none))
     | _ => none)
  | fuel + 1, PMode.items, cs =>
    (match pStep fuel PMode.val cs with
     | none => none
     | some (v, r) =>
       (match skipWs r with
        | ',' :: r2 =>
          (match pStep fuel PMode.items r2 with
           | some (JVal.jarr xs, r3) => some (JVal.jarr (v :: xs), r3)
           | _ => none)
        | ']' :: r2 => some (JVal.jarr [v], r2)
        | _ => none))

/-- `json.loads`: a full document, with only trailing whitespace
allowed after the value. -/
def parseJson (cs : List Char) : Option JVal :=
  match pStep (cs.length + 8) PMode.val cs with
  | some (v, rest) => if (skipWs rest).isEmpty then some v else none
  | none => none

/-- `re.search(r'\\\x7b.*\\\x7d', s, re.DOTALL)`: from the first opening
brace (provided a closing brace follows it) to the last closing brace. -/
def extractBlock (cs : List Char) : Option (List Char) :=
  let pre := cs.dropWhile (fun c => c != '\x7b')
  match pre with
  | [] => none
  | _ :: _ =>
    let upto := (pre.reverse.dropWhile (fun c => c != '\x7d')).reverse
    if upto.isEmpty then none else some upto

/-- The decision-extraction tail of `get_best_swap_path`
(query_engine.py lines 204-212) as a function of the language-model
advice text: search for a JSON-like block, `json.loads` it (an
exception escapes as `Except.error`), return the advice together with
the optional decision. -/
def adviceToDecision (advice : String) : Except String (String × Option JVal) :=
  match extractBlock advice.toList with
  | some b =>
    match parseJson b with
    | some v => Except.ok (advice, some v)
    | none => Except.error "JSONDecodeError"
  | none => Except.ok (advice, none)

/-! ## Shared concrete fixtures and event predicates -/

/-- The double `0.5` (a typical slippage percentage, exactly
representable). -/
def slipHalf : Q := ⟨1, 2, by omega⟩

/-- An executor with a loaded wallet, live (non-simulate) mode. -/
def cfgLive : Cfg := ⟨some "0xME", false, 1⟩

/-- An executor with a loaded wallet, simulate mode. -/
def cfgSim : Cfg := ⟨some "0xME", true, 1⟩

/-- A well-behaved chain environment: ample balances, 6 decimals,
valid checksums, successful estimation, successful receipt. -/
def envStd : Env :=
  ⟨Q.ofInt 10, fun _ => Q.ofInt 1000000, fun _ => 6, fun _ => true,
   some 100000, some 50000, 1, 0, 0, "0xHASH", 1⟩

/-- Events belonging to the token-approval sub-transaction. -/
def isApproveEv : Ev → Bool
  | Ev.approveGasEstimateCall _ _ _ => true
  | Ev.approveBuild _ _ _ => true
  | Ev.approveSend => true
  | Ev.approveWait _ => true
  | _ => false

/-- The event of constructing the swap transaction. -/
def isSwapBuildEv : Ev → Bool
  | Ev.swapBuild _ => true
  | _ => false

/-- Broadcast events (`send_raw_transaction` calls). -/
def isBroadcastEv : Ev → Bool
  | Ev.swapSend => true
  | Ev.approveSend => true
  | _ => false

/-! ## Claim C1 -/

/-- C1: the claim states that for a non-native source token,
`execute_swap` performs (or verifies) a confirmed `approve_token` step
for `(from_token, dex)` before `generate_swap_transaction` builds the
swap transaction.  Evaluating the code at the failing input
(`from_token = "USDC"`, a non-native asset, live mode, cooperative
chain): the trace contains the swap-build and the broadcast but no
approval event whatsoever — `execute_swap` never calls
`approve_token`. -/
theorem C1_no_approval_before_build :
    ((execute_swap cfgLive envStd "USDC" "ETH" (Q.ofInt 5) "Uniswap V2" slipHalf
        none none).2.any isSwapBuildEv = true) ∧
    ((execute_swap cfgLive envStd "USDC" "ETH" (Q.ofInt 5) "Uniswap V2" slipHalf
        none none).2.any isBroadcastEv = true) ∧
    ((execute_swap cfgLive envStd "USDC" "ETH" (Q.ofInt 5) "Uniswap V2" slipHalf
        none none).2.any isApproveEv = false) := by
  refine ⟨by decide, by decide, by decide⟩

/-! ## Claim C3 -/

/-- C3: the claim states that the built minimum acceptable output is
the exact integer floor of `amount_in_smallest_unit * (1 -
slippage_pct/100)`, and equals `995000` at `(1_000_000, 0.5)`.  The
cited instance holds, but the code computes the minimum in IEEE-754
double arithmetic (`int(amount_in_wei * (1 - slippage / 100))`), which
at `amount = 2^53 + 1`, `slippage = 0.5` yields `8962163258467287` —
one *below* the exact floor `8962163258467288`, i.e. a smaller minimum
than the caller's stated tolerance. -/
theorem C3_min_out_float_vs_exact_floor :
    amountOutMin 1000000 slipHalf = 995000 ∧
    amountOutMin (2 ^ 53 + 1) slipHalf = 8962163258467287 ∧
    specMinOut (2 ^ 53 + 1) slipHalf = 8962163258467288 ∧
    amountOutMin (2 ^ 53 + 1) slipHalf ≠ specMinOut (2 ^ 53 + 1) slipHalf := by
  refine ⟨by decide, by decide, by decide, by decide⟩

/-! ## Claim C9 -/

/-- C9 counterexample: the claim states that a transient
(non-rate-limit) failure is retried with exponential backoff starting
at 2 seconds and doubling per attempt, which for two retries means
sleeps `[2, 4]`.  With every attempt failing at transport level the
code sleeps `[2, 2]` — the 2-second pause is constant, not doubled. -/
theorem C9_transient_backoff_counterexample :
    make_alchemy_request (fun _ => FetchOut.reqException) = ⟨none, [2, 2], 3⟩ ∧
    ([2, 2] : List ℕ) ≠ [2, 2 * 2] := by
  refine ⟨by decide, by decide⟩

theorem fetchAux_attempts_le (env : ℕ → FetchOut) :
    ∀ fuel start, (fetchAux env fuel start).attempts ≤ fuel := by
  intro fuel
  induction fuel with
  | zero => intro start; simp [fetchAux]
  | succ n ih =>
    intro start
    simp only [fetchAux]
    cases henv : env start with
    | success r => simp
    | apiOther => simp
    | apiRateLimit => simpa using Nat.succ_le_succ (ih (start + 1))
    | reqException =>
      by_cases hlt : start < 3 - 1
      · simpa [hlt] using Nat.succ_le_succ (ih (start + 1))
      · simp [hlt]

/-- C9 (amended): the fetcher makes at most 3 attempts; a transient
failure is retried after a constant 2-second sleep; a rate-limit
response is retried after `2 * 2^attempt` seconds (exponential, and the
sleep also occurs after the final rate-limited attempt); exhausting the
attempts returns `None` to the caller instead of raising. -/
theorem C9_retry_policy (env : ℕ → FetchOut) :
    (make_alchemy_request env).attempts ≤ 3 ∧
    ((∀ i, env i = FetchOut.reqException) →
      make_alchemy_request env = ⟨none, [2, 2], 3⟩) ∧
    ((∀ i, env i = FetchOut.apiRateLimit) →
      make_alchemy_request env = ⟨none, [2, 4, 8], 3⟩) ∧
    (∀ r, env 0 = FetchOut.success r → make_alchemy_request env = ⟨some r, [], 1⟩) := by
  refine ⟨fetchAux_attempts_le env 3 0, ?_, ?_, ?_⟩
  · intro h
    simp [make_alchemy_request, fetchAux, h 0, h 1, h 2]
  · intro h
    simp [make_alchemy_request, fetchAux, h 0, h 1, h 2]
  · intro r h
    simp [make_alchemy_request, fetchAux, h]

/-- Witness for C9: the rate-limited environment exercises the
hypotheses of the amended policy theorem. -/
theorem C9_retry_policy_witness :
    make_alchemy_request (fun _ => FetchOut.apiRateLimit) = ⟨none, [2, 4, 8], 3⟩ :=
  (C9_retry_policy (fun _ => FetchOut.apiRateLimit)).2.2.1 (fun _ => rfl)

/-! ## Claim C10 -/

/-- C10: for a loaded wallet, a non-native token known to the Registry
and a known DEX, the allowance granted by `approve_token` is the
explicit `amount` when one is passed and the unlimited `2^256 - 1`
when `amount` is `None` — the approval never depends on any pending
swap's size.  The first event of the approval flow carries the granted
amount. -/
theorem C10_default_allowance_unlimited (cfg : Cfg) (env : Env) (tok dex : String)
    (amt : Option ℕ) (hacct : cfg.account.isSome = true) (hne : (tok == "ETH") = false)
    (htok : mem TOKEN_ADDRESSES tok = true) (hdex : mem DEX_ROUTER_ADDRESSES dex = true) :
    (approve_token cfg env tok dex amt).2.head? =
      some (Ev.approveGasEstimateCall tok dex (amt.getD (2 ^ 256 - 1))) := by
  have hnone : cfg.account.isNone = false := by
    cases h : cfg.account <;> simp_all
  unfold approve_token
  rw [hnone]
  simp only [Bool.false_eq_true, if_false, hne, htok, hdex, Bool.not_true, if_false]
  cases henv : env.approveGasEstimate with
  | none => simp
  | some g =>
    by_cases htm : cfg.testMode <;> simp [htm]

/-- Witness for C10: a concrete `approve_token` call with `amount =
None` grants exactly `2^256 - 1`. -/
theorem C10_default_allowance_unlimited_witness :
    (approve_token cfgSim envStd "USDC" "Uniswap V2" none).2.head? =
      some (Ev.approveGasEstimateCall "USDC" "Uniswap V2" (2 ^ 256 - 1)) :=
  C10_default_allowance_unlimited cfgSim envStd "USDC" "Uniswap V2" none rfl rfl
    (by decide) (by decide)

/-! ## Claim C4 -/

/-- C4: with a wallet loaded and a destination that passes (or skips)
checksum validation, a `from_token` (or a `to_token`) that is neither
`"ETH"` nor a Registry key makes `generate_swap_transaction` fail with
the respective unknown-token error, performing no chain interaction and
building nothing: the result is the error with an empty event trace. -/
theorem C4_unknown_token_builds_nothing (cfg : Cfg) (env : Env) (ft tt : String)
    (amt : Q) (dex : String) (slip : Q) (destAddr : Option String) (a : String)
    (hacct : cfg.account = some a)
    (hdest : destAddr.getD a = "" ∨ env.checksumOk (destAddr.getD a) = true) :
    ((mem TOKEN_ADDRESSES ft = false ∧ ft ≠ "ETH") →
      generate_swap_transaction cfg env ft tt amt dex slip destAddr =
        (Except.error (Err.unknownSourceToken ft), [])) ∧
    ((¬ (mem TOKEN_ADDRESSES ft = false ∧ ft ≠ "ETH")) →
      (mem TOKEN_ADDRESSES tt = false ∧ tt ≠ "ETH") →
      generate_swap_transaction cfg env ft tt amt dex slip destAddr =
        (Except.error (Err.unknownDestToken tt), [])) := by
  unfold generate_swap_transaction
  rw [hacct]
  have hdcond : ¬ (destAddr.getD a ≠ "" ∧ env.checksumOk (destAddr.getD a) = false) := by
    rcases hdest with h | h
    · intro hc; exact hc.1 h
    · intro hc; rw [h] at hc; exact absurd hc.2 (by simp)
  constructor
  · rintro ⟨h1, h2⟩
    have hb : (!mem TOKEN_ADDRESSES ft && ft != "ETH") = true := by
      simp [h1, h2]
    simp only [hdcond, if_false, hb, if_true]
  · intro hok
    rintro ⟨h2, h3⟩
    have hb : (!mem TOKEN_ADDRESSES ft && ft != "ETH") = false := by
      by_cases hm : mem TOKEN_ADDRESSES ft
      · simp [hm]
      · have : ft = "ETH" := by
          by_contra hne
          exact hok ⟨by simpa using hm, hne⟩
        simp [this]
    have hb2 : (!mem TOKEN_ADDRESSES tt && tt != "ETH") = true := by
      simp [h2, h3]
    simp only [hdcond, if_false, hb, Bool.false_eq_true, hb2, if_true]

/-- Witness for C4: a concrete unknown source token (`"FOO"`) and a
concrete unknown destination token (`"BAR"`) each yield the respective
error with an empty trace. -/
theorem C4_unknown_token_builds_nothing_witness :
    generate_swap_transaction cfgLive envStd "FOO" "USDC" (Q.ofInt 1) "Uniswap V2"
      slipHalf none = (Except.error (Err.unknownSourceToken "FOO"), []) ∧
    generate_swap_transaction cfgLive envStd "USDC" "BAR" (Q.ofInt 1) "Uniswap V2"
      slipHalf none = (Except.error (Err.unknownDestToken "BAR"), []) :=
  ⟨(C4_unknown_token_builds_nothing cfgLive envStd "FOO" "USDC" (Q.ofInt 1) "Uniswap V2"
      slipHalf none "0xME" rfl (Or.inr rfl)).1 ⟨by decide, by decide⟩,
   (C4_unknown_token_builds_nothing cfgLive envStd "USDC" "BAR" (Q.ofInt 1) "Uniswap V2"
      slipHalf none "0xME" rfl (Or.inr rfl)).2 (by decide) ⟨by decide, by decide⟩⟩

/-! ## Claim C5 -/

/-- The transaction builder performs only read-only chain interactions:
its trace never contains a broadcast event, whatever the inputs. -/
theorem generate_no_broadcast (cfg : Cfg) (env : Env) (ft tt : String) (amt : Q)
    (dex : String) (slip : Q) (destAddr : Option String) :
    (generate_swap_transaction cfg env ft tt amt dex slip destAddr).2.any
      isBroadcastEv = false := by
  unfold generate_swap_transaction
  cases cfg.account with
  | none => simp
  | some a =>
    dsimp only
    split_ifs <;> simp [isBroadcastEv]

/-- C5: in simulate mode (`test_mode` resolved to `True`),
`execute_swap` never calls the broadcast collaborator
(`send_raw_transaction`), and any value it returns is the placeholder
`"test_tx_hash"` — the terminal `Confirmed`-equivalent of the simulate
path. -/
theorem C5_simulate_never_broadcasts (cfg : Cfg) (env : Env) (ft tt : String) (amt : Q)
    (dex : String) (slip : Q) (destAddr : Option String) (tmArg : Option Bool)
    (htm : tmArg.getD cfg.testMode = true) :
    ((execute_swap cfg env ft tt amt dex slip destAddr tmArg).2.any isBroadcastEv = false) ∧
    (∀ r, (execute_swap cfg env ft tt amt dex slip destAddr tmArg).1 = Except.ok r →
      r = some "test_tx_hash") := by
  unfold execute_swap
  dsimp only
  rw [htm]
  by_cases hacct : cfg.account.isNone
  · simp [hacct]
  · rw [if_neg (by simpa using hacct)]
    rcases hg : generate_swap_transaction cfg env ft tt amt dex slip destAddr with ⟨res, evs⟩
    have hevs : evs.any isBroadcastEv = false := by
      have := generate_no_broadcast cfg env ft tt amt dex slip destAddr
      rw [hg] at this
      exact this
    cases res with
    | error e => simpa using hevs
    | ok tx =>
      refine ⟨by simpa using hevs, ?_⟩
      intro r hr
      simp at hr
      exact hr.symm

/-- Witness for C5: a concrete simulate-mode execution returns the
placeholder and its trace has no broadcast. -/
theorem C5_simulate_never_broadcasts_witness :
    ((execute_swap cfgLive envStd "USDC" "ETH" (Q.ofInt 5) "Uniswap V2" slipHalf none
        (some true)).2.any isBroadcastEv = false) ∧
    (execute_swap cfgLive envStd "USDC" "ETH" (Q.ofInt 5) "Uniswap V2" slipHalf none
        (some true)).1 = Except.ok (some "test_tx_hash") :=
  ⟨(C5_simulate_never_broadcasts cfgLive envStd "USDC" "ETH" (Q.ofInt 5) "Uniswap V2"
      slipHalf none (some true) rfl).1, rfl⟩

/-! ## Claim C6 -/

/-- Non-strict lexicographic comparison of the ranking keys
`(avg_rate, count)` — `keyGe a b` says `a`'s key is at least `b`'s. -/
def keyGe (a b : PathStat) : Prop :=
  Q.lt b.avgRate a.avgRate ∨ (Q.eqv a.avgRate b.avgRate ∧ b.count ≤ a.count)

theorem keyGe_of_not_gt {x y : PathStat} (h : ¬ keyGt y x) : keyGe x y := by
  unfold keyGt at h
  unfold keyGe
  unfold Q.lt Q.eqv at *
  push_neg at h
  obtain ⟨h1, h2⟩ := h
  rcases lt_trichotomy (x.avgRate.num * y.avgRate.den) (y.avgRate.num * x.avgRate.den)
    with hc | hc | hc
  · exact absurd hc (not_lt.2 h1)
  · exact Or.inr ⟨hc, h2 hc.symm⟩
  · exact Or.inl hc

theorem keyGe_of_gt {x y : PathStat} (h : keyGt x y) : keyGe x y := by
  unfold keyGt at h
  unfold keyGe
  unfold Q.lt Q.eqv at *
  rcases h with h | ⟨h1, h2⟩
  · exact Or.inl h
  · exact Or.inr ⟨h1, Nat.le_of_lt h2⟩

theorem insertDesc_chain {x : PathStat} {l : List PathStat}
    (h : List.Chain' keyGe l) : List.Chain' keyGe (insertDesc x l) := by
  induction l with
  | nil => simp [insertDesc]
  | cons y ys ih =>
    rw [insertDesc]
    by_cases hgt : keyGt y x
    · rw [if_pos hgt]
      cases ys with
      | nil =>
        simp only [insertDesc]
        exact List.chain'_cons.2 ⟨keyGe_of_gt hgt, List.chain'_singleton x⟩
      | cons z zs =>
        have htl : List.Chain' keyGe (insertDesc x (z :: zs)) := ih (List.Chain'.tail h)
        rw [insertDesc] at htl ⊢
        by_cases hz : keyGt z x
        · rw [if_pos hz] at htl ⊢
          exact List.chain'_cons.2 ⟨(List.chain'_cons.1 h).1, htl⟩
        · rw [if_neg hz] at htl ⊢
          exact List.chain'_cons.2 ⟨keyGe_of_gt hgt, htl⟩
    · rw [if_neg hgt]
      exact List.chain'_cons.2 ⟨keyGe_of_not_gt hgt, h⟩

theorem sortDesc_chain (l : List PathStat) : List.Chain' keyGe (sortDesc l) := by
  induction l with
  | nil => simp [sortDesc]
  | cons a t ih => exact insertDesc_chain ih

/-- The example match set of the specification: 5 matches aggregating
to `(path A, avg 2, count 5)`, 9 to `(B, avg 2, count 9)`, 1 to
`(C, avg 3, count 1)`. -/
def exC6 : List SwapRec :=
  (List.replicate 5 (⟨"A", "dA", Q.ofInt 2, "h"⟩ : SwapRec)) ++
  (List.replicate 9 (⟨"B", "dB", Q.ofInt 2, "h"⟩ : SwapRec)) ++
  [⟨"C", "dC", Q.ofInt 3, "h"⟩]

/-- C6: the ranker's output is sorted non-increasing in the
lexicographic order of `(avg_rate, count)` (average rate primary, count
breaking ties) for every match set; the spec's example set comes out in
order `[C, B, A]`; and the empty match set yields the empty list with
no error. -/
theorem C6_rank_sorted_desc :
    (∀ ms, List.Chain'
      (fun a b => b.avgRate.toRat < a.avgRate.toRat ∨
        (a.avgRate.toRat = b.avgRate.toRat ∧ b.count ≤ a.count))
      (get_optimal_swap_paths ms)) ∧
    get_optimal_swap_paths [] = [] ∧
    (get_optimal_swap_paths exC6).map (fun s => s.path) = ["C", "B", "A"] := by
  refine ⟨?_, rfl, by decide⟩
  intro ms
  refine (sortDesc_chain _).imp ?_
  intro a b h
  rcases h with h | ⟨h1, h2⟩
  · exact Or.inl ((Q.lt_iff _ _).1 h)
  · exact Or.inr ⟨(Q.eqv_iff _ _).1 h1, h2⟩

/-! ## Claim C2 -/

/-- C2 counterexample: the claim states a decision of `None` is
returned — with no error raised — whenever the advice's JSON-like block
is malformed.  On `"\x7bnot json\x7d"` the block is present but not
parsable, and the code raises `json.JSONDecodeError` out of
`get_best_swap_path` instead of returning `(advice, None)`. -/
theorem C2_malformed_block_raises :
    adviceToDecision "\x7bnot json\x7d" = Except.error "JSONDecodeError" ∧
    extractBlock ("\x7bnot json\x7d".toList) = some ("\x7bnot json\x7d".toList) ∧
    adviceToDecision "\x7bnot json\x7d" ≠ Except.ok ("\x7bnot json\x7d", none) :=
  ⟨rfl, rfl, fun h => nomatch h⟩

/-- C2 (amended): the decision-extraction step of `get_best_swap_path`
returns `(advice, None)` exactly when the advice contains no JSON-like
block; when a block is present it is handed to `json.loads`, which
yields the decision for a well-formed block and raises
`JSONDecodeError` (propagating out of the function) for a malformed
one. -/
theorem C2_decision_extraction (advice : String) :
    (extractBlock advice.toList = none → adviceToDecision advice = Except.ok (advice, none)) ∧
    (∀ b, extractBlock advice.toList = some b → parseJson b = none →
      adviceToDecision advice = Except.error "JSONDecodeError") ∧
    (∀ b v, extractBlock advice.toList = some b → parseJson b = some v →
      adviceToDecision advice = Except.ok (advice, some v)) := by
  refine ⟨?_, ?_, ?_⟩
  · intro h
    unfold adviceToDecision
    rw [h]
  · intro b hb hp
    simp only [adviceToDecision, hb, hp]
  · intro b v hb hp
    simp only [adviceToDecision, hb, hp]

/-- Witness for C2: an advice text with no block yields `(advice,
None)`; one with a well-formed block yields the parsed decision. -/
theorem C2_decision_extraction_witness :
    adviceToDecision "no structured block here" =
      Except.ok ("no structured block here", none) ∧
    adviceToDecision "advice \x7b\"a\": 1\x7d" =
      Except.ok ("advice \x7b\"a\": 1\x7d",
        some (JVal.jobj [(['a'], JVal.jnum ⟨1, 1, Int.zero_lt_one⟩)])) :=
  ⟨(C2_decision_extraction "no structured block here").1 rfl,
   (C2_decision_extraction "advice \x7b\"a\": 1\x7d").2.2 ("\x7b\"a\": 1\x7d".toList)
     (JVal.jobj [(['a'], JVal.jnum ⟨1, 1, Int.zero_lt_one⟩)]) (by rfl) (by rfl)⟩

/-! ## Claim C7 -/

/-- First occurrences of each distinct token, in order of first
appearance (the claim's notion of "first two distinct tokens"). -/
def distinctTokens (ts : List (List Char)) : List (List Char) :=
  ts.foldl (fun acc t => if t ∈ acc then acc else acc ++ [t]) []

/-- C7 counterexample: the claim states that with no directional match
and at least two distinct ticker-like tokens, parse returns the first
two *distinct* tokens.  On `"ETH ETH USDC"` the hypotheses hold (no
directional cue; the distinct tokens in order are `ETH`, `USDC`), but
the code returns the first two token *occurrences* `("ETH", "ETH")`,
not `("ETH", "USDC")`. -/
theorem C7_distinctness_counterexample :
    searchDir ("ETH ETH USDC".toList) = none ∧
    distinctTokens (tickerTokens ("ETH ETH USDC".toList)) =
      ["ETH".toList, "USDC".toList] ∧
    parse_swap_query "ETH ETH USDC" = (some ("ETH".toList), some ("ETH".toList), none) ∧
    ("ETH".toList : List Char) ≠ "USDC".toList := by
  refine ⟨by decide, by decide, by decide, by decide⟩

/-- C7 (amended): with no directional match and at least two
ticker-like token occurrences, parse returns the first two occurrences
(which need not be distinct) as `(from_token, to_token)`, and the
amount is attached exactly when the uppercased word adjacent to the
first matched number equals the first token occurrence. -/
theorem C7_fallback_first_two_occurrences (q : String) (t0 t1 : List Char)
    (rest : List (List Char)) (hdir : searchDir q.toList = none)
    (htoks : tickerTokens q.toList = t0 :: t1 :: rest) :
    parse_swap_query q = (some t0, some t1,
      match searchAmt q.toList with
      | some nw => if upperL nw.2 = t0 then some nw.1 else none
      | none => none) := by
  unfold parse_swap_query
  rw [hdir, htoks]
  cases searchAmt q.toList with
  | none => rfl
  | some nw =>
    by_cases h : upperL nw.2 = t0 <;> simp [h]

/-- Witness for C7: on `"100 ETH USDC"` the fallback branch returns
`(ETH, USDC)` with the amount `100` attached (the word adjacent to the
number is the first token). -/
theorem C7_fallback_first_two_occurrences_witness :
    parse_swap_query "100 ETH USDC" =
      (some ("ETH".toList), some ("USDC".toList),
        some (⟨100, 1, Int.zero_lt_one⟩ : Q)) := by
  have h := C7_fallback_first_two_occurrences "100 ETH USDC" ("ETH".toList)
    ("USDC".toList) [] (by decide) (by decide)
  rw [h]
  decide

/-! ## Claim C8: infrastructure

The fallback `(None, None, None)` branch of `parse_swap_query` is
reached only when the directional pattern does not match and fewer than
two ticker-like runs exist.  The work below shows a directional match
is impossible with fewer than two runs: a match contains the verb cue
(two adjacent letters), then later a whitespace character followed by
the transition cue (two more adjacent letters), which after `upper()`
yields at least two maximal uppercase runs of length at least 2. -/

theorem charOfNat_toNat {n : ℕ} (h : n < 55296) : (Char.ofNat n).toNat = n := by
  have hv : n.isValidChar := Or.inl h
  have hlt : n < 2 ^ 32 := by omega
  simp only [Char.ofNat, hv, dif_pos, Char.ofNatAux, Char.toNat, UInt32.toNat]
  simp [BitVec.toNat_ofNatLt]

theorem isAlphaA_of_lowEq {k c : Char} (hk1 : 97 ≤ k.toNat) (hk2 : k.toNat ≤ 122)
    (h : lowEq k c = true) : isAlphaA c = true := by
  simp only [lowEq, Bool.or_eq_true, beq_iff_eq] at h
  simp only [isAlphaA, Bool.or_eq_true, Bool.and_eq_true, decide_eq_true_eq]
  omega

theorem isUpperA_upperChar_of_alpha {c : Char} (h : isAlphaA c = true) :
    isUpperA (upperChar c) = true := by
  simp only [isAlphaA, Bool.or_eq_true, Bool.and_eq_true, decide_eq_true_eq] at h
  unfold upperChar
  by_cases hc : 97 ≤ c.toNat ∧ c.toNat ≤ 122
  · rw [if_pos hc]
    have hofn := charOfNat_toNat (n := c.toNat - 32) (by omega)
    simp only [isUpperA, hofn, Bool.and_eq_true, decide_eq_true_eq]
    omega
  · rw [if_neg hc]
    simp only [isUpperA, Bool.and_eq_true, decide_eq_true_eq]
    omega

theorem isUpperA_upperChar_of_space {c : Char} (h : isSpacePy c = true) :
    isUpperA (upperChar c) = false := by
  simp only [isSpacePy, Bool.or_eq_true, beq_iff_eq] at h
  unfold upperChar
  rw [if_neg (by omega)]
  simp only [isUpperA, Bool.and_eq_true, decide_eq_true_eq]
  simp only [Bool.and_eq_false_iff, decide_eq_false_iff_not]
  omega

/-- Some two adjacent characters of the list are both (ASCII)
letters. -/
def adjAlpha : List Char → Prop
  | a :: b :: t => (isAlphaA a = true ∧ isAlphaA b = true) ∨ adjAlpha (b :: t)
  | _ => False

/-- Some two adjacent characters of the list are both uppercase. -/
def adjUp : List Char → Prop
  | a :: b :: t => (isUpperA a = true ∧ isUpperA b = true) ∨ adjUp (b :: t)
  | _ => False

theorem adjAlpha_cons (c : Char) {l : List Char} (h : adjAlpha l) : adjAlpha (c :: l) := by
  cases l with
  | nil => exact h.elim
  | cons b t => exact Or.inr h

theorem adjAlpha_append_left (x : List Char) {y : List Char} (h : adjAlpha y) :
    adjAlpha (x ++ y) := by
  induction x with
  | nil => simpa using h
  | cons c t ih => exact adjAlpha_cons c ih

theorem adjUp_of_adjAlpha {cs : List Char} (h : adjAlpha cs) : adjUp (upperL cs) := by
  induction cs with
  | nil => exact h.elim
  | cons a t ih =>
    cases t with
    | nil => exact h.elim
    | cons b t2 =>
      rcases h with ⟨h1, h2⟩ | h3
      · exact Or.inl ⟨isUpperA_upperChar_of_alpha h1, isUpperA_upperChar_of_alpha h2⟩
      · exact Or.inr (ih h3)

theorem adjUp_append_right {x : List Char} (y : List Char) (h : adjUp x) :
    adjUp (x ++ y) := by
  induction x with
  | nil => exact h.elim
  | cons a t ih =>
    cases t with
    | nil => exact h.elim
    | cons b t2 =>
      rcases h with ⟨h1, h2⟩ | h3
      · exact Or.inl ⟨h1, h2⟩
      · exact Or.inr (ih h3)

/-- The list starts with an uppercase character. -/
def headIsUp : List Char → Prop
  | c :: _ => isUpperA c = true
  | [] => False

theorem runsAux_break {D : Char} (hD : isUpperA D = false) :
    ∀ (X Y acc : List Char),
      runsAux (X ++ D :: Y) acc = runsAux (X ++ [D]) acc ++ runsAux Y [] := by
  intro X
  induction X with
  | nil =>
    intro Y acc
    by_cases ha : acc.isEmpty <;> simp [runsAux, hD, ha]
  | cons c t ih =>
    intro Y acc
    by_cases hc : isUpperA c
    · simp only [List.cons_append, runsAux, hc, if_true]
      exact ih Y (c :: acc)
    · by_cases ha : acc.isEmpty <;>
        · simp only [List.cons_append, runsAux, hc, Bool.false_eq_true, if_false, ha,
            if_true, List.cons_append]
          simp [ih Y []]

theorem runs_filter_pos : ∀ (w acc : List Char),
    (adjUp w ∨ (headIsUp w ∧ acc ≠ []) ∨ 2 ≤ acc.length) →
    1 ≤ ((runsAux w acc).filter (fun r => 2 ≤ r.length)).length := by
  intro w
  induction w with
  | nil =>
    intro acc h
    rcases h with h | ⟨h1, _⟩ | h
    · exact h.elim
    · exact h1.elim
    · have hne : acc.isEmpty = false := by cases acc <;> simp_all
      simp [runsAux, hne, List.filter_cons, h]
  | cons c cs ih =>
    intro acc h
    by_cases hc : isUpperA c
    · simp only [runsAux, hc, if_true]
      apply ih
      rcases h with h | ⟨h1, h2⟩ | h
      · cases cs with
        | nil => exact h.elim
        | cons b t =>
          rcases h with ⟨_, hb⟩ | h3
          · exact Or.inr (Or.inl ⟨hb, by simp⟩)
          · exact Or.inl h3
      · refine Or.inr (Or.inr ?_)
        have := List.length_pos.2 h2
        simp only [List.length_cons]
        omega
      · refine Or.inr (Or.inr ?_)
        simp only [List.length_cons]
        omega
    · by_cases ha : acc.isEmpty
      · simp only [runsAux, hc, Bool.false_eq_true, if_false, ha, if_true]
        apply ih
        rcases h with h | ⟨h1, h2⟩ | h
        · cases cs with
          | nil => exact h.elim
          | cons b t =>
            rcases h with ⟨hc1, _⟩ | h3
            · exact absurd hc1 (by simp [hc])
            · exact Or.inl h3
        · exact absurd h1 hc
        · exact absurd h (by cases acc <;> simp_all)
      · simp only [runsAux, hc, Bool.false_eq_true, if_false, ha]
        rcases h with h | ⟨h1, h2⟩ | h
        · have hcs : adjUp cs := by
            cases cs with
            | nil => exact h.elim
            | cons b t =>
              rcases h with ⟨hc1, _⟩ | h3
              · exact absurd hc1 (by simp [hc])
              · exact h3
          have hrec := ih [] (Or.inl hcs)
          simp only [List.filter_cons]
          split
          · simp
          · simp
            omega
        · exact absurd h1 hc
        · simp only [List.filter_cons]
          rw [if_pos (by simp only [List.length_reverse]; exact decide_eq_true (by omega))]
          simp

theorem two_tokens {X Y : List Char} {D : Char} (hX : adjUp X) (hY : adjUp Y)
    (hD : isUpperA D = false) :
    2 ≤ ((runsAux (X ++ D :: Y) []).filter (fun r => 2 ≤ r.length)).length := by
  rw [runsAux_break hD X Y []]
  rw [List.filter_append, List.length_append]
  have h1 := runs_filter_pos (X ++ [D]) [] (Or.inl (adjUp_append_right [D] hX))
  have h2 := runs_filter_pos Y [] (Or.inl hY)
  omega

theorem splitWhile_append (p : Char → Bool) (cs : List Char) :
    (splitWhile p cs).1 ++ (splitWhile p cs).2 = cs := by
  simp [splitWhile, List.takeWhile_append_dropWhile]

theorem splitWhile_mem {p : Char → Bool} {cs : List Char} {c : Char}
    (h : c ∈ (splitWhile p cs).1) : p c = true :=
  List.mem_takeWhile_imp h

theorem matchLit_decomp : ∀ {ks cs r : List Char}, matchLit ks cs = some r →
    ∃ p, cs = p ++ r ∧ List.Forall₂ (fun k c => lowEq k c = true) ks p := by
  intro ks
  induction ks with
  | nil =>
    intro cs r h
    simp only [matchLit, Option.some.injEq] at h
    exact ⟨[], by simp [h], List.Forall₂.nil⟩
  | cons k ks2 ih =>
    intro cs r h
    cases cs with
    | nil => simp [matchLit] at h
    | cons c cs2 =>
      simp only [matchLit] at h
      by_cases hle : lowEq k c
      · rw [if_pos hle] at h
        obtain ⟨p, hp, hf⟩ := ih h
        exact ⟨c :: p, by simp [hp], List.Forall₂.cons hle hf⟩
      · rw [if_neg hle] at h
        exact absurd h (by simp)

theorem matchAlts_decomp : ∀ {alts : List (List Char)} {cs r : List Char},
    matchAlts alts cs = some r → ∃ ks, ks ∈ alts ∧ matchLit ks cs = some r := by
  intro alts
  induction alts with
  | nil => intro cs r h; simp [matchAlts] at h
  | cons a rest ih =>
    intro cs r h
    simp only [matchAlts] at h
    cases hm : matchLit a cs with
    | some r2 =>
      rw [hm] at h
      exact ⟨a, by simp, by rw [hm]; exact h⟩
    | none =>
      rw [hm] at h
      obtain ⟨ks, hmem, hml⟩ := ih h
      exact ⟨ks, by simp [hmem], hml⟩

theorem dirKeywords_start {cs r : List Char} (h : matchAlts dirKeywords cs = some r) :
    ∃ c0 c1 p2, cs = (c0 :: c1 :: p2) ++ r ∧ isAlphaA c0 = true ∧ isAlphaA c1 = true := by
  obtain ⟨ks, hmem, hml⟩ := matchAlts_decomp h
  simp only [dirKeywords, List.mem_cons, List.not_mem_nil, or_false] at hmem
  rcases hmem with rfl | rfl | rfl | rfl <;>
  · obtain ⟨p, hp, hf⟩ := matchLit_decomp hml
    cases hf with
    | cons h1 hf2 =>
      cases hf2 with
      | cons h2 _ =>
        exact ⟨_, _, _, hp, isAlphaA_of_lowEq (by decide) (by decide) h1,
          isAlphaA_of_lowEq (by decide) (by decide) h2⟩

theorem dirTransitions_start {cs r : List Char}
    (h : matchAlts dirTransitions cs = some r) :
    ∃ c0 c1 u, cs = c0 :: c1 :: u ∧ isAlphaA c0 = true ∧ isAlphaA c1 = true := by
  obtain ⟨ks, hmem, hml⟩ := matchAlts_decomp h
  simp only [dirTransitions, List.mem_cons, List.not_mem_nil, or_false] at hmem
  rcases hmem with rfl | rfl | rfl <;>
  · obtain ⟨p, hp, hf⟩ := matchLit_decomp hml
    cases hf with
    | cons h1 hf2 =>
      cases hf2 with
      | cons h2 _ =>
        exact ⟨_, _, _, by simpa using hp, isAlphaA_of_lowEq (by decide) (by decide) h1,
          isAlphaA_of_lowEq (by decide) (by decide) h2⟩

theorem amtSplit_suffix (cs : List Char) : ∃ region, cs = region ++ (amtSplit cs).2 := by
  unfold amtSplit
  by_cases h1 : (splitWhile isDigitA cs).1.isEmpty
  · rw [if_pos h1]
    exact ⟨[], rfl⟩
  · rw [if_neg h1]
    split
    · rename_i r3 heq
      dsimp only
      by_cases h2 : (splitWhile isDigitA r3).1.isEmpty
      · rw [if_pos h2]
        exact ⟨(splitWhile isDigitA cs).1, by rw [splitWhile_append isDigitA cs]⟩
      · rw [if_neg h2]
        refine ⟨(splitWhile isDigitA cs).1 ++ '.' :: (splitWhile isDigitA r3).1, ?_⟩
        conv_lhs => rw [← splitWhile_append isDigitA cs]
        rw [heq]
        conv_lhs => rw [← splitWhile_append isDigitA r3]
        simp
    · exact ⟨(splitWhile isDigitA cs).1, by rw [splitWhile_append isDigitA cs]⟩

theorem matchDirAt_decomp {cs : List Char} {m : DirMatch} (h : matchDirAt cs = some m) :
    ∃ x w y, cs = x ++ w :: y ∧ adjAlpha x ∧ isSpacePy w = true ∧ adjAlpha y := by
  unfold matchDirAt at h
  cases hk : matchAlts dirKeywords cs with
  | none => rw [hk] at h; exact absurd h (by simp)
  | some r0 =>
    rw [hk] at h
    dsimp only at h
    obtain ⟨c0, c1, p2, hcs, ha0, ha1⟩ := dirKeywords_start hk
    by_cases h1 : (splitWhile isSpacePy r0).1.isEmpty
    · rw [if_pos h1] at h; exact absurd h (by simp)
    · rw [if_neg h1] at h
      obtain ⟨region, hreg⟩ := amtSplit_suffix (splitWhile isSpacePy r0).2
      by_cases h2 : (splitWhile isAlphaA
          (splitWhile isSpacePy (amtSplit (splitWhile isSpacePy r0).2).2).2).1.isEmpty
      · rw [if_pos h2] at h; exact absurd h (by simp)
      · rw [if_neg h2] at h
        by_cases h3 : (splitWhile isSpacePy (splitWhile isAlphaA
            (splitWhile isSpacePy (amtSplit (splitWhile isSpacePy r0).2).2).2).2).1.isEmpty
        · rw [if_pos h3] at h; exact absurd h (by simp)
        · rw [if_neg h3] at h
          cases htr : matchAlts dirTransitions (splitWhile isSpacePy (splitWhile isAlphaA
              (splitWhile isSpacePy (amtSplit (splitWhile isSpacePy r0).2).2).2).2).2 with
          | none => rw [htr] at h; exact absurd h (by simp)
          | some r8 =>
            obtain ⟨d0, d1, u2, htreq, hd0, hd1⟩ := dirTransitions_start htr
            obtain ⟨w, wsRest, hws⟩ : ∃ w wsRest,
                (splitWhile isSpacePy (splitWhile isAlphaA (splitWhile isSpacePy
                  (amtSplit (splitWhile isSpacePy r0).2).2).2).2).1 = w :: wsRest := by
              cases hx : (splitWhile isSpacePy (splitWhile isAlphaA (splitWhile isSpacePy
                  (amtSplit (splitWhile isSpacePy r0).2).2).2).2).1 with
              | nil => rw [hx] at h3; exact absurd rfl h3
              | cons a b => exact ⟨a, b, rfl⟩
            refine ⟨c0 :: c1 :: (p2 ++ (splitWhile isSpacePy r0).1 ++ region ++
                (splitWhile isSpacePy (amtSplit (splitWhile isSpacePy r0).2).2).1 ++
                (splitWhile isAlphaA (splitWhile isSpacePy
                  (amtSplit (splitWhile isSpacePy r0).2).2).2).1),
              w, wsRest ++ (splitWhile isSpacePy (splitWhile isAlphaA (splitWhile isSpacePy
                (amtSplit (splitWhile isSpacePy r0).2).2).2).2).2,
              ?_, Or.inl ⟨ha0, ha1⟩, ?_, ?_⟩
            · rw [hcs]
              conv_lhs => rw [← splitWhile_append isSpacePy r0]
              conv_lhs => rw [hreg]
              conv_lhs => rw [← splitWhile_append isSpacePy
                (amtSplit (splitWhile isSpacePy r0).2).2]
              conv_lhs => rw [← splitWhile_append isAlphaA (splitWhile isSpacePy
                (amtSplit (splitWhile isSpacePy r0).2).2).2]
              conv_lhs => rw [← splitWhile_append isSpacePy (splitWhile isAlphaA
                (splitWhile isSpacePy (amtSplit (splitWhile isSpacePy r0).2).2).2).2]
              rw [hws]
              simp [List.append_assoc]
            · exact splitWhile_mem (by rw [hws]; exact List.mem_cons_self w wsRest)
            · rw [htreq]
              exact adjAlpha_append_left wsRest (Or.inl ⟨hd0, hd1⟩)

theorem searchDir_suffix : ∀ {cs : List Char} {m : DirMatch}, searchDir cs = some m →
    ∃ u v, cs = u ++ v ∧ matchDirAt v = some m := by
  intro cs
  induction cs with
  | nil => intro m h; simp [searchDir] at h
  | cons c t ih =>
    intro m h
    simp only [searchDir] at h
    cases hm : matchDirAt (c :: t) with
    | some m2 =>
      rw [hm] at h
      exact ⟨[], c :: t, rfl, by rw [hm]; exact h⟩
    | none =>
      rw [hm] at h
      obtain ⟨u, v, huv, hv⟩ := ih h
      exact ⟨c :: u, v, by simp [huv], hv⟩

/-- A successful directional match guarantees at least two ticker-like
runs: the verb cue and the transition cue survive `upper()` as distinct
uppercase runs. -/
theorem searchDir_two_tokens {cs : List Char} {m : DirMatch}
    (h : searchDir cs = some m) : 2 ≤ (tickerTokens cs).length := by
  obtain ⟨u, v, rfl, hm⟩ := searchDir_suffix h
  obtain ⟨x, w, y, hv, hax, hw, hay⟩ := matchDirAt_decomp hm
  subst hv
  have hre : u ++ (x ++ w :: y) = (u ++ x) ++ w :: y := by simp [List.append_assoc]
  rw [hre]
  unfold tickerTokens
  have hmap : upperL ((u ++ x) ++ w :: y) = upperL (u ++ x) ++ upperChar w :: upperL y := by
    simp [upperL]
  rw [hmap]
  exact two_tokens (adjUp_of_adjAlpha (adjAlpha_append_left u hax))
    (adjUp_of_adjAlpha hay) (isUpperA_upperChar_of_space hw)

/-! ## Claim C8 -/

/-- C8: an input containing fewer than two ticker-like tokens
(occurrences of two-or-more consecutive uppercase letters after
case-folding) always parses to `(None, None, None)`: the directional
pattern cannot match such a text (its cues themselves contain two
runs), and the fallback branch requires two tokens. -/
theorem C8_few_tokens_parse_fails (q : String)
    (h : (tickerTokens q.toList).length < 2) :
    parse_swap_query q = (none, none, none) := by
  unfold parse_swap_query
  cases hd : searchDir q.toList with
  | some m => exact absurd (searchDir_two_tokens hd) (by omega)
  | none =>
    cases htk : tickerTokens q.toList with
    | nil => cases searchAmt q.toList <;> rfl
    | cons t0 rest =>
      cases rest with
      | nil => cases searchAmt q.toList <;> rfl
      | cons t1 rest2 =>
        rw [htk] at h
        simp at h
        omega

/-- Witness for C8: `"hello"` upper-cases to a single run, hence one
ticker-like token, and parses to the empty intent. -/
theorem C8_few_tokens_parse_fails_witness :
    (tickerTokens ("hello".toList)).length < 2 ∧
    parse_swap_query "hello" = (none, none, none) :=
  ⟨by decide, C8_few_tokens_parse_fails "hello" (by decide)⟩

end Swap
